import Mathlib

/-!
# Battle manager: embedding of `src/sample.go` (package `battle`)

Go values are embedded as follows.

* Heap objects (backing arrays of `[]Log` slices, `*Combatant` cells, map
  objects, contexts, tickers) live in an explicit `Heap`; a pointer is an
  address into the matching list of the heap.
* A method with a pointer receiver takes the receiver's current value and
  returns the updated value next to its Go results.
* `error` is `Option Error`, `none` being `nil`.
* An implementation of the `LogsReceiver` interface from outside the package
  owns a state of type `σ`. It is handed the context and the slice; since the
  slice shares its backing array with the caller, the receiver may write the
  heap as well as its own state.
-/

namespace Battle

/-! ## Data model -/

/-- A `uuid.UUID` (sixteen bytes), represented by its numeric value. -/
abbrev UUID := Nat

abbrev EntityID := UUID
abbrev ActionID := UUID
abbrev LogID := UUID

/-- The Go type is `int`; the two constants are the `iota` values. -/
abbrev CombatantState := Int

def StateAlive : CombatantState := 0
def StateIncapacitated : CombatantState := 1

/-- Values of type `interface{}` stored in the open-ended maps. -/
inductive Value where
  | nil
  | int (n : Int)
  | str (s : String)
  | bool (b : Bool)
  deriving DecidableEq, Repr

/-- A map object `map[string]interface{}` as stored on the heap. -/
abbrev MapObj := List (String × Value)

/-- A map value: `none` is the nil map, `some a` the map object at address `a`. -/
abbrev MapRef := Option Nat

structure Action where
  ID : ActionID
  Type_ : String
  Source : EntityID
  Target : EntityID
  Params : MapRef
  deriving DecidableEq, Repr

structure Log where
  ID : LogID
  Action : Action
  Details : MapRef
  deriving DecidableEq, Repr

structure Combatant where
  ID : EntityID
  State : CombatantState
  Stats : MapRef
  deriving DecidableEq, Repr

/-- A `*Combatant`: `none` is the nil pointer. -/
abbrev CombatantPtr := Option Nat

/-- A `context.Context` that is not nil, by the address of its cell (the
`context` package requires a parent that is not nil). -/
abbrev Context := Nat

/-- A Go `error` value that is not nil. -/
abbrev Error := String

/-- The zero value of `Log`, which `make` fills new arrays with. -/
def Log.zero : Log :=
  { ID := 0, Action := { ID := 0, Type_ := "", Source := 0, Target := 0, Params := none },
    Details := none }

/-- A context cell: the parent it was derived from and whether its own
cancel function has run. -/
structure CtxCell where
  parent : Option Context
  cancelled : Bool
  deriving DecidableEq, Repr

structure Heap where
  /-- Backing arrays of `[]Log` slices. -/
  logArrays : List (List Log)
  /-- Cells addressed by `*Combatant`. -/
  combatants : List Combatant
  /-- Map objects addressed by `MapRef`. -/
  maps : List MapObj
  /-- Context cells. -/
  contexts : List CtxCell
  /-- The `*time.Ticker` objects: `true` while running. -/
  tickers : List Bool
  deriving DecidableEq, Repr

/-- A `[]Log` slice header: backing array, offset into it, length. A slice of
length zero stands for the nil slice as well (nothing here compares a slice
with nil). -/
structure Slice where
  arr : Nat
  off : Nat
  len : Nat
  deriving DecidableEq, Repr

def Slice.nil : Slice := { arr := 0, off := 0, len := 0 }

/-- The elements of a slice, in order. -/
def Heap.readSlice (h : Heap) (s : Slice) : List Log :=
  ((h.logArrays.getD s.arr []).drop s.off).take s.len

/-- A slice header is valid on a heap when its window lies inside its array. -/
def Slice.valid (s : Slice) (h : Heap) : Prop :=
  s.off + s.len ≤ (h.logArrays.getD s.arr []).length

instance (s : Slice) (h : Heap) : Decidable (s.valid h) := by
  unfold Slice.valid; infer_instance

/-- Go's `make([]Log, n)`: a fresh array of `n` zero values. -/
def makeLogs (n : Nat) (h : Heap) : Slice × Heap :=
  ({ arr := h.logArrays.length, off := 0, len := n },
   { h with logArrays := h.logArrays ++ [List.replicate n Log.zero] })

/-- The array `a` with `vals` stored from index `off` on. -/
def storeAt (a : List Log) (off : Nat) (vals : List Log) : List Log :=
  a.take off ++ vals ++ a.drop (off + vals.length)

/-- Go's `copy(dst, src)`: the first `min (len dst) (len src)` elements of
`src` are stored into `dst`; the count is returned. -/
def copyLogs (dst src : Slice) (h : Heap) : Nat × Heap :=
  let n := min dst.len src.len
  let vals := (h.readSlice src).take n
  (n, { h with logArrays :=
          h.logArrays.set dst.arr (storeAt (h.logArrays.getD dst.arr []) dst.off vals) })

/-- The assignment `s[i] = v` made by a holder of the slice `s`; `none` is the
index-out-of-range panic. -/
def Slice.assign (s : Slice) (i : Nat) (v : Log) (h : Heap) : Option Heap :=
  if i < s.len then
    some { h with logArrays :=
             h.logArrays.set s.arr ((h.logArrays.getD s.arr []).set (s.off + i) v) }
  else none

/-- A run of assignments `s[i] = v`, left to right. -/
def Slice.assignAll (s : Slice) : List (Nat × Log) → Heap → Option Heap
  | [], h => some h
  | (i, v) :: ws, h =>
    match s.assign i v h with
    | some h1 => s.assignAll ws h1
    | none => none

/-- The cell a `*Combatant` points to. -/
def Heap.deref (h : Heap) (p : CombatantPtr) : Option Combatant :=
  match p with
  | some a => h.combatants.get? a
  | none => none

structure BattleField where
  combatants : List CombatantPtr
  deriving DecidableEq, Repr

structure CombatLogic where
  combatants : List CombatantPtr
  deriving DecidableEq, Repr

structure CombatantLogic where
  combatants : List CombatantPtr
  deriving DecidableEq, Repr

/-- The heap together with the state `σ` of the receivers implemented outside
the package. -/
structure World (σ : Type) where
  heap : Heap
  ext : σ

/-- A value of the interface `LogsReceiver`: its one method. The method is
handed the context and the slice header and runs on the whole world, so it can
read and overwrite the elements of the slice it is handed. (The manager itself
is held by value: a receiver calling back into the manager is not covered.) -/
structure LogsReceiver (σ : Type) where
  ReceiveLogs : Context → Slice → World σ → Option Error × World σ

structure BattleManager (σ : Type) where
  paused : Bool
  turnTicker : Option Nat
  logs : Slice
  combatLogic : CombatLogic
  combatantLogic : CombatantLogic
  logsReceivers : List (LogsReceiver σ)
  ctx : Context
  /-- The `context.CancelFunc`: `none` is nil, `some c` cancels the context `c`. -/
  cancel : Option Context

/-! ## Operations -/

/-- `context.WithCancel(parent)`: a fresh context cell and the address its
cancel function acts on. -/
def withCancel (parent : Context) (h : Heap) : (Context × Context) × Heap :=
  ((h.contexts.length, h.contexts.length),
   { h with contexts := h.contexts ++ [{ parent := some parent, cancelled := false }] })

/-- Running a cancel function. -/
def cancelCtx (c : Context) (h : Heap) : Heap :=
  { h with contexts :=
      h.contexts.set c { parent := ((h.contexts.get? c).bind CtxCell.parent), cancelled := true } }

/-- `(*time.Ticker).Stop`. -/
def stopTicker (t : Nat) (h : Heap) : Heap :=
  { h with tickers := h.tickers.set t false }

def NewBattleManager {σ : Type} (ctx : Context) (combatants : List CombatantPtr) (h : Heap) :
    (BattleManager σ × Option Error) × Heap :=
  let ((bmCtx, cancel), h1) := withCancel ctx h
  let (logs, h2) := makeLogs 0 h1
  (({ paused := false,
      turnTicker := none,
      logs := logs,
      combatLogic := { combatants := combatants },
      combatantLogic := { combatants := combatants },
      logsReceivers := [],
      ctx := bmCtx,
      cancel := some cancel }, none), h2)

def BattleManager.ListLogs {σ : Type} (bm : BattleManager σ) (h : Heap) : Slice × Heap :=
  let (out, h1) := makeLogs bm.logs.len h
  let (_, h2) := copyLogs out bm.logs h1
  (out, h2)

def BattleManager.Pause {σ : Type} (bm : BattleManager σ) (h : Heap) :
    Option Error × BattleManager σ × Heap :=
  let h1 := match bm.turnTicker with
    | some t => stopTicker t h
    | none => h
  let h2 := match bm.cancel with
    | some c => cancelCtx c h1
    | none => h1
  (none, { bm with paused := true }, h2)

/-- The body is empty and the function has no result. -/
def BattleManager.processTicker {σ : Type} (bm : BattleManager σ) (w : World σ) :
    BattleManager σ × World σ :=
  (bm, w)

def BattleField.updateCombatants (_bf : BattleField) (_logs : Slice) (h : Heap) :
    Option Error × Heap :=
  (none, h)

def BattleField.ReceiveLogs (bf : BattleField) (_ctx : Context) (logs : Slice) (h : Heap) :
    Option Error × Heap :=
  bf.updateCombatants logs h

def CombatLogic.ProcessActions (_cl : CombatLogic) (_actions : List Action) (h : Heap) :
    (Slice × Option Error) × Heap :=
  ((Slice.nil, none), h)

def CombatantLogic.ProcessCombatants (_cpl : CombatantLogic) (_logs : Slice) (h : Heap) :
    Option Error × Heap :=
  (none, h)

/-- The `*BattleField` as a value of the interface `LogsReceiver`. -/
def BattleField.toReceiver {σ : Type} (bf : BattleField) : LogsReceiver σ :=
  { ReceiveLogs := fun ctx logs w =>
      ((bf.ReceiveLogs ctx logs w.heap).1, { w with heap := (bf.ReceiveLogs ctx logs w.heap).2 }) }

/-- The loop of `emitNewLogs` over the receivers still to be called. -/
def emitLoop {σ : Type} (ctx : Context) (logs : Slice) :
    List (LogsReceiver σ) → World σ → Option Error × World σ
  | [], w => (none, w)
  | r :: rs, w =>
    match r.ReceiveLogs ctx logs w with
    | (some err, w1) => (some err, w1)
    | (none, w1) => emitLoop ctx logs rs w1

def BattleManager.emitNewLogs {σ : Type} (bm : BattleManager σ) (ctx : Context) (logs : Slice)
    (w : World σ) : Option Error × World σ :=
  emitLoop ctx logs bm.logsReceivers w

def BattleManager.AddLogsReceiver {σ : Type} (bm : BattleManager σ) (r : LogsReceiver σ) :
    BattleManager σ :=
  { bm with logsReceivers := bm.logsReceivers ++ [r] }

def NewBattleField {σ : Type} (combatants : List CombatantPtr) (bm : Option (BattleManager σ)) :
    (BattleField × Option Error) × Option (BattleManager σ) :=
  let bf : BattleField := { combatants := combatants }
  match bm with
  | some m => ((bf, none), some (m.AddLogsReceiver bf.toReceiver))
  | none => ((bf, none), none)

/-- The heap `h1` differs from `h` at most in the contents of the log array at
address `a`, no array having changed its length. -/
def Heap.sameBut (a : Nat) (h h1 : Heap) : Prop :=
  (∀ b, (h1.logArrays.getD b []).length = (h.logArrays.getD b []).length) ∧
  (∀ b, b ≠ a → h1.logArrays.getD b [] = h.logArrays.getD b []) ∧
  h1.logArrays.length = h.logArrays.length ∧
  h1.combatants = h.combatants ∧ h1.maps = h.maps ∧
  h1.contexts = h.contexts ∧ h1.tickers = h.tickers

/-! ## Runs of operations -/

/-- The log history of a manager: the elements of its `logs` slice. -/
def BattleManager.history {σ : Type} (bm : BattleManager σ) (h : Heap) : List Log :=
  h.readSlice bm.logs

/-- The operations on a manager. -/
inductive Op (σ : Type) where
  | ListLogs
  | Pause
  | processTicker
  | emitNewLogs (ctx : Context) (logs : Slice)
  | AddLogsReceiver (r : LogsReceiver σ)

/-- One operation on a manager in a world: the `error` it reports (`none` as
well for an operation whose Go signature has no `error` result), the manager
and the world afterwards. The slice `ListLogs` returns goes to the caller. -/
def Op.run {σ : Type} : Op σ → BattleManager σ × World σ →
    Option Error × BattleManager σ × World σ
  | .ListLogs, (bm, w) => (none, bm, { w with heap := (bm.ListLogs w.heap).2 })
  | .Pause, (bm, w) =>
    ((bm.Pause w.heap).1, (bm.Pause w.heap).2.1, { w with heap := (bm.Pause w.heap).2.2 })
  | .processTicker, (bm, w) => (none, bm.processTicker w)
  | .emitNewLogs ctx logs, (bm, w) =>
    ((bm.emitNewLogs ctx logs w).1, bm, (bm.emitNewLogs ctx logs w).2)
  | .AddLogsReceiver r, (bm, w) => (none, bm.AddLogsReceiver r, w)

/-- A run of operations, left to right. -/
def runOps {σ : Type} : List (Op σ) → BattleManager σ × World σ → BattleManager σ × World σ
  | [], s => s
  | op :: ops, s => runOps ops (op.run s).2

/-- The ways a batch of logs is applied to the combatants. -/
inductive Apply where
  | receiveLogs (bf : BattleField) (ctx : Context) (logs : Slice)
  | updateCombatants (bf : BattleField) (logs : Slice)
  | processCombatants (cpl : CombatantLogic) (logs : Slice)
  deriving DecidableEq, Repr

def Apply.run : Apply → Heap → Option Error × Heap
  | .receiveLogs bf ctx logs, h => bf.ReceiveLogs ctx logs h
  | .updateCombatants bf logs, h => bf.updateCombatants logs h
  | .processCombatants cpl logs, h => cpl.ProcessCombatants logs h

/-- A sequence of batches applied one after the other. -/
def applyAll : List Apply → Heap → Heap
  | [], h => h
  | a :: as, h => applyAll as (a.run h).2

/-! ## Predicates used to state properties of action resolution

The source has no validation code; these spell out the conditions of the
specification (section 4.1) so that properties of `ProcessActions` can be
stated. -/

/-- The combatants a registry's pointers lead to. -/
def registry (h : Heap) (ps : List CombatantPtr) : List Combatant :=
  ps.filterMap h.deref

/-- The action's source is a combatant of the registry whose state is Alive. -/
def sourceOk (h : Heap) (ps : List CombatantPtr) (a : Action) : Bool :=
  (registry h ps).any (fun c => c.ID == a.Source && c.State == StateAlive)

/-- The action's target is a combatant of the registry. -/
def targetOk (h : Heap) (ps : List CombatantPtr) (a : Action) : Bool :=
  (registry h ps).any (fun c => c.ID == a.Target)

def validAction (h : Heap) (ps : List CombatantPtr) (a : Action) : Bool :=
  sourceOk h ps a && targetOk h ps a

/-! ## Concrete values -/

/-- Two combatants A (ID 1) and B (ID 2), both Alive with health 10, the
parameters of a "damage 12" attack, and one background context. -/
def duelHeap : Heap :=
  { logArrays := [],
    combatants := [{ ID := 1, State := StateAlive, Stats := some 0 },
                   { ID := 2, State := StateAlive, Stats := some 1 }],
    maps := [[("health", .int 10)], [("health", .int 10)], [("damage", .int 12)]],
    contexts := [{ parent := none, cancelled := false }],
    tickers := [] }

def duelCombatants : List CombatantPtr := [some 0, some 1]

/-- The action "attack" from A to B with effect "damage 12". -/
def attackAB : Action :=
  { ID := 7, Type_ := "attack", Source := 1, Target := 2, Params := some 2 }

/-- An attack whose target (ID 99) is not in the registry. -/
def attackUnknown : Action :=
  { ID := 8, Type_ := "attack", Source := 1, Target := 99, Params := some 2 }

/-- The manager of the duel, as constructed by `NewBattleManager`. -/
def duelManager : BattleManager Nat :=
  (NewBattleManager 0 duelCombatants duelHeap).1.1

/-- The world right after the duel's manager was constructed. -/
def duelWorld : World Nat :=
  { heap := (@NewBattleManager Nat 0 duelCombatants duelHeap).2, ext := 0 }

def logA : Log := { ID := 11, Action := attackAB, Details := some 2 }
def logB : Log := { ID := 12, Action := attackAB, Details := none }
def logC : Log := { ID := 13, Action := attackUnknown, Details := none }

/-- A heap whose only log array holds a history of two logs, with a running
ticker and a live context. -/
def historyHeap : Heap :=
  { logArrays := [[logA, logB]],
    combatants := [{ ID := 1, State := StateAlive, Stats := none },
                   { ID := 2, State := StateIncapacitated, Stats := none }],
    maps := [[], [], [("damage", .int 12)]],
    contexts := [{ parent := none, cancelled := false }],
    tickers := [true] }

/-- A running manager with the two-log history, a ticker and a cancel function. -/
def historyManager : BattleManager Nat :=
  { paused := false, turnTicker := some 0, logs := { arr := 0, off := 0, len := 2 },
    combatLogic := { combatants := [some 0, some 1] },
    combatantLogic := { combatants := [some 0, some 1] },
    logsReceivers := [], ctx := 0, cancel := some 0 }

/-- A receiver from outside the package that counts its calls and succeeds. -/
def countingReceiver : LogsReceiver Nat :=
  { ReceiveLogs := fun _ _ w => (none, { w with ext := w.ext + 1 }) }

/-- A receiver from outside the package that fails. -/
def failingReceiver : LogsReceiver Nat :=
  { ReceiveLogs := fun _ _ w => (some "receiver down", w) }

/-- A receiver from outside the package that stores `logC` into the first
element of the batch it is handed, when the batch has one, and succeeds. -/
def overwritingReceiver : LogsReceiver Nat :=
  { ReceiveLogs := fun _ logs w =>
      match logs.assign 0 logC w.heap with
      | some h1 => (none, { w with heap := h1 })
      | none => (none, w) }

def sampleReceivers : List (LogsReceiver Nat) :=
  [countingReceiver, BattleField.toReceiver { combatants := [some 0, some 1] },
   overwritingReceiver, failingReceiver, countingReceiver]

/-- The manager with the two-log history after `Pause`. -/
def cancelledManager : BattleManager Nat := (historyManager.Pause historyHeap).2.1

/-- The world after that `Pause`. -/
def cancelledWorld : World Nat :=
  { heap := (historyManager.Pause historyHeap).2.2, ext := 0 }

/-- An attack whose source (ID 2) is Incapacitated on `historyHeap`. -/
def attackFromFallen : Action :=
  { ID := 9, Type_ := "attack", Source := 2, Target := 1, Params := none }

/-! ## Observing a broadcast -/

/-- What a receiver notes of one call it receives: its position in the
registration order, the context and the slice header it is handed, the
elements it finds in that slice on entry, and the `error` it returns. -/
structure Call where
  index : Nat
  ctx : Context
  batch : Slice
  seen : List Log
  result : Option Error
  deriving DecidableEq, Repr

/-- The receiver `r` made to note, next to its own state, each call it
receives; it acts on the heap and on its own state, and answers, as `r` does. -/
def LogsReceiver.noting {σ : Type} (i : Nat) (r : LogsReceiver σ) :
    LogsReceiver (σ × List Call) :=
  { ReceiveLogs := fun ctx logs w =>
      ((r.ReceiveLogs ctx logs { heap := w.heap, ext := w.ext.1 }).1,
       { heap := (r.ReceiveLogs ctx logs { heap := w.heap, ext := w.ext.1 }).2.heap,
         ext := ((r.ReceiveLogs ctx logs { heap := w.heap, ext := w.ext.1 }).2.ext,
                 w.ext.2 ++ [{ index := i, ctx := ctx, batch := logs,
                               seen := w.heap.readSlice logs,
                               result :=
                                 (r.ReceiveLogs ctx logs
                                   { heap := w.heap, ext := w.ext.1 }).1 }]) }) }

/-- The receivers `rs`, each noting its calls, numbered from `i` on. -/
def notingFrom {σ : Type} (i : Nat) : List (LogsReceiver σ) → List (LogsReceiver (σ × List Call))
  | [] => []
  | r :: rs => r.noting i :: notingFrom (i + 1) rs

/-- Called with `ctx` and `logs`, the receiver leaves the elements of the slice
`s` as they are, in every world. -/
def LogsReceiver.keeps {σ : Type} (r : LogsReceiver σ) (ctx : Context) (logs s : Slice) : Prop :=
  ∀ w : World σ, (r.ReceiveLogs ctx logs w).2.heap.readSlice s = w.heap.readSlice s

/-- The duel's manager for receivers that note their calls. -/
def notingManager : BattleManager (Nat × List Call) :=
  (NewBattleManager 0 duelCombatants duelHeap).1.1

/-- The heap of the two-log history with a second array holding a batch of
one log. -/
def batchHeap : Heap := { historyHeap with logArrays := [[logA, logB], [logA]] }

def batchWorld : World Nat := { heap := batchHeap, ext := 0 }

/-- The batch in the second array of `batchHeap`. -/
def freshBatch : Slice := { arr := 1, off := 0, len := 1 }

theorem foldl_AddLogsReceiver {σ : Type} (rs : List (LogsReceiver σ)) (bm : BattleManager σ) :
    (rs.foldl BattleManager.AddLogsReceiver bm).logsReceivers = bm.logsReceivers ++ rs := by
  induction rs generalizing bm with
  | nil => simp
  | cons r rs ih => simp [ih, BattleManager.AddLogsReceiver]

theorem emitLoop_noting {σ : Type} (ctx : Context) (logs : Slice) (rs : List (LogsReceiver σ))
    (i : Nat) (t : List Call) (w : World σ) :
    ∃ cs : List Call,
      (emitLoop ctx logs (notingFrom i rs) { heap := w.heap, ext := (w.ext, t) }).2.ext.2
          = t ++ cs ∧
      cs.length ≤ rs.length ∧
      cs.map Call.index = List.range' i cs.length ∧
      (∀ c ∈ cs, c.ctx = ctx ∧ c.batch = logs) ∧
      ((emitLoop ctx logs (notingFrom i rs) { heap := w.heap, ext := (w.ext, t) }).1 = none ↔
        cs.length = rs.length ∧ ∀ c ∈ cs, c.result = none) ∧
      (∀ e, (emitLoop ctx logs (notingFrom i rs) { heap := w.heap, ext := (w.ext, t) }).1
          = some e →
        ∃ pre ck, cs = pre ++ [ck] ∧ ck.result = some e ∧ ∀ c ∈ pre, c.result = none) ∧
      ((∀ r ∈ rs, r.keeps ctx logs logs) → ∀ c ∈ cs, c.seen = w.heap.readSlice logs) ∧
      (emitLoop ctx logs (notingFrom i rs) { heap := w.heap, ext := (w.ext, t) }).1
        = (emitLoop ctx logs rs w).1 ∧
      (emitLoop ctx logs (notingFrom i rs) { heap := w.heap, ext := (w.ext, t) }).2.heap
        = (emitLoop ctx logs rs w).2.heap ∧
      (emitLoop ctx logs (notingFrom i rs) { heap := w.heap, ext := (w.ext, t) }).2.ext.1
        = (emitLoop ctx logs rs w).2.ext := by
  induction rs generalizing i t w with
  | nil => exact ⟨[], by simp [emitLoop, notingFrom]⟩
  | cons r rs ih =>
    rcases hres : r.ReceiveLogs ctx logs w with ⟨res, w1⟩
    have hres1 : r.ReceiveLogs ctx logs { heap := w.heap, ext := w.ext } = (res, w1) := hres
    have key : (r.noting i).ReceiveLogs ctx logs { heap := w.heap, ext := (w.ext, t) }
        = (res, { heap := w1.heap,
                  ext := (w1.ext, t ++ [{ index := i, ctx := ctx, batch := logs,
                                          seen := w.heap.readSlice logs, result := res }]) }) := by
      simp only [LogsReceiver.noting, hres1]
    cases res with
    | some err =>
      have hE : emitLoop ctx logs (notingFrom i (r :: rs)) { heap := w.heap, ext := (w.ext, t) }
          = (some err, { heap := w1.heap,
                         ext := (w1.ext, t ++ [{ index := i, ctx := ctx, batch := logs,
                                                 seen := w.heap.readSlice logs,
                                                 result := some err }]) }) := by
        simp only [notingFrom, emitLoop, key]
      have hP : emitLoop ctx logs (r :: rs) w = (some err, w1) := by
        simp only [emitLoop, hres]
      rw [hE, hP]
      refine ⟨[{ index := i, ctx := ctx, batch := logs, seen := w.heap.readSlice logs,
                 result := some err }], rfl, by simp, by simp [List.range'], by simp, by simp,
        ?_, by simp, rfl, rfl, rfl⟩
      intro e he
      refine ⟨[], _, rfl, ?_, by simp⟩
      simpa using he
    | none =>
      have hE : emitLoop ctx logs (notingFrom i (r :: rs)) { heap := w.heap, ext := (w.ext, t) }
          = emitLoop ctx logs (notingFrom (i + 1) rs)
              { heap := w1.heap,
                ext := (w1.ext, t ++ [{ index := i, ctx := ctx, batch := logs,
                                        seen := w.heap.readSlice logs, result := none }]) } := by
        simp only [notingFrom, emitLoop, key]
      have hP : emitLoop ctx logs (r :: rs) w = emitLoop ctx logs rs w1 := by
        simp only [emitLoop, hres]
      rw [hE, hP]
      obtain ⟨cs, h1, h2, h3, h4, h5, h6, h7, h8, h9, h10⟩ :=
        ih (i + 1) (t ++ [{ index := i, ctx := ctx, batch := logs,
                            seen := w.heap.readSlice logs, result := none }]) w1
      refine ⟨{ index := i, ctx := ctx, batch := logs, seen := w.heap.readSlice logs,
                result := none } :: cs, by rw [h1]; simp, by simp; omega,
        by simp [h3, List.range'], ?_, ?_, ?_, ?_, h8, h9, h10⟩
      · intro c hcm
        rcases List.mem_cons.1 hcm with rfl | hcm
        · exact ⟨rfl, rfl⟩
        · exact h4 c hcm
      · rw [h5]; simp
      · intro e he
        obtain ⟨pre, ck, e1, e2, e3⟩ := h6 e he
        refine ⟨{ index := i, ctx := ctx, batch := logs, seen := w.heap.readSlice logs,
                  result := none } :: pre, ck, by simp [e1], e2, ?_⟩
        intro c hcm
        rcases List.mem_cons.1 hcm with rfl | hcm
        · rfl
        · exact e3 c hcm
      · intro hk c hcm
        rcases List.mem_cons.1 hcm with rfl | hcm
        · rfl
        · rw [h7 (fun r1 hr1 => hk r1 (List.mem_cons_of_mem r hr1)) c hcm]
          have := hk r (List.mem_cons_self r rs) w
          rw [hres] at this
          exact this

/-- C1. Let the receivers `r1 .. rn` be registered by `AddLogsReceiver` calls
on a manager without receivers, each made to note the calls it receives. Then
after `emitNewLogs ctx logs` the notes are those of the receivers at positions
`0 .. k-1`, in that order, for some `k` up to `n`, each called with that same
context and that same slice; nil is returned exactly when all `n` were called
and all returned nil; an error returned is the answer of the last receiver
called, every receiver called before it having answered nil; when the receivers
leave the batch's elements alone, each finds the same elements in it; and the
answer, the heap and the receivers' states are those of `emitNewLogs` on the
manager holding `r1 .. rn` themselves. -/
theorem emitNewLogs_registration_order {σ : Type} (bm0 : BattleManager (σ × List Call))
    (bm1 : BattleManager σ) (rs : List (LogsReceiver σ)) (ctx : Context) (logs : Slice)
    (w : World σ) (h0 : bm0.logsReceivers = []) (h1 : bm1.logsReceivers = []) :
    (rs.foldl BattleManager.AddLogsReceiver bm1).logsReceivers = rs ∧
    ((notingFrom 0 rs).foldl BattleManager.AddLogsReceiver bm0).logsReceivers
      = notingFrom 0 rs ∧
    ∃ cs : List Call,
      (((notingFrom 0 rs).foldl BattleManager.AddLogsReceiver bm0).emitNewLogs ctx logs
          { heap := w.heap, ext := (w.ext, []) }).2.ext.2 = cs ∧
      cs.length ≤ rs.length ∧
      cs.map Call.index = List.range cs.length ∧
      (∀ c ∈ cs, c.ctx = ctx ∧ c.batch = logs) ∧
      (((rs.foldl BattleManager.AddLogsReceiver bm1).emitNewLogs ctx logs w).1 = none ↔
        cs.length = rs.length ∧ ∀ c ∈ cs, c.result = none) ∧
      (∀ e, ((rs.foldl BattleManager.AddLogsReceiver bm1).emitNewLogs ctx logs w).1 = some e →
        ∃ pre ck, cs = pre ++ [ck] ∧ ck.result = some e ∧ ∀ c ∈ pre, c.result = none) ∧
      ((∀ r ∈ rs, r.keeps ctx logs logs) → ∀ c ∈ cs, c.seen = w.heap.readSlice logs) ∧
      (((notingFrom 0 rs).foldl BattleManager.AddLogsReceiver bm0).emitNewLogs ctx logs
          { heap := w.heap, ext := (w.ext, []) }).1
        = ((rs.foldl BattleManager.AddLogsReceiver bm1).emitNewLogs ctx logs w).1 ∧
      (((notingFrom 0 rs).foldl BattleManager.AddLogsReceiver bm0).emitNewLogs ctx logs
          { heap := w.heap, ext := (w.ext, []) }).2.heap
        = ((rs.foldl BattleManager.AddLogsReceiver bm1).emitNewLogs ctx logs w).2.heap ∧
      (((notingFrom 0 rs).foldl BattleManager.AddLogsReceiver bm0).emitNewLogs ctx logs
          { heap := w.heap, ext := (w.ext, []) }).2.ext.1
        = ((rs.foldl BattleManager.AddLogsReceiver bm1).emitNewLogs ctx logs w).2.ext := by
  have hrs : (rs.foldl BattleManager.AddLogsReceiver bm1).logsReceivers = rs := by
    rw [foldl_AddLogsReceiver, h1]; simp
  have hns : ((notingFrom 0 rs).foldl BattleManager.AddLogsReceiver bm0).logsReceivers
      = notingFrom 0 rs := by
    rw [foldl_AddLogsReceiver, h0]; simp
  refine ⟨hrs, hns, ?_⟩
  unfold BattleManager.emitNewLogs
  rw [hrs, hns]
  obtain ⟨cs, c1, c2, c3, c4, c5, c6, c7, c8, c9, c10⟩ := emitLoop_noting ctx logs rs 0 [] w
  refine ⟨cs, by simpa using c1, c2, by rw [c3, List.range_eq_range'], c4, ?_, ?_, c7, c8, c9, c10⟩
  · rw [← c8]; exact c5
  · intro e he; exact c6 e (by rw [c8]; exact he)

/-! ## Slices and the history copy -/

theorem getD_set_self_length (l : List (List Log)) (a : Nat) (x : List Log)
    (hx : x.length = (l.getD a []).length) (b : Nat) :
    ((l.set a x).getD b []).length = (l.getD b []).length := by
  simp only [List.getD_eq_getElem?_getD, List.getElem?_set] at *
  by_cases hab : a = b
  · subst hab
    by_cases hl : a < l.length
    · simp [hl] at hx ⊢; exact hx
    · have hn : l[a]? = none := List.getElem?_eq_none (by omega)
      simp [hl, hn]
  · simp [hab]

theorem getD_set_ne (l : List (List Log)) (a b : Nat) (x : List Log) (hab : b ≠ a) :
    (l.set a x).getD b [] = l.getD b [] := by
  simp only [List.getD_eq_getElem?_getD, List.getElem?_set]
  simp [Ne.symm hab]

theorem readSlice_length (h : Heap) (s : Slice) (hv : s.valid h) :
    (h.readSlice s).length = s.len := by
  simp only [Slice.valid, List.getD_eq_getElem?_getD] at hv
  simp [Heap.readSlice]; omega

theorem valid_arr_lt (h : Heap) (s : Slice) (hv : s.valid h) (hl : 0 < s.len) :
    s.arr < h.logArrays.length := by
  unfold Slice.valid at hv
  by_contra hc
  rw [List.getD_eq_getElem?_getD, List.getElem?_eq_none (by omega)] at hv
  simp at hv; omega

theorem readSlice_len_zero (h : Heap) (s : Slice) (hl : s.len = 0) : h.readSlice s = [] := by
  simp [Heap.readSlice, hl]

theorem ListLogs_eq {σ : Type} (bm : BattleManager σ) (h : Heap) (hv : bm.logs.valid h) :
    bm.ListLogs h =
      ({ arr := h.logArrays.length, off := 0, len := bm.logs.len },
       { h with logArrays := h.logArrays ++ [h.readSlice bm.logs] }) := by
  have hread : ({ h with logArrays := h.logArrays ++ [List.replicate bm.logs.len Log.zero] } :
      Heap).readSlice bm.logs = h.readSlice bm.logs := by
    by_cases hl : bm.logs.len = 0
    · rw [readSlice_len_zero _ _ hl, readSlice_len_zero _ _ hl]
    · have := valid_arr_lt h bm.logs hv (by omega)
      simp [Heap.readSlice, List.getD_eq_getElem?_getD, List.getElem?_append_left this]
  have hlen := readSlice_length h bm.logs hv
  simp only [BattleManager.ListLogs, makeLogs, copyLogs, hread]
  simp [storeAt, List.getD_eq_getElem?_getD, List.take_of_length_le (le_of_eq hlen)]
  omega

theorem sameBut_refl (a : Nat) (h : Heap) : h.sameBut a h :=
  ⟨fun _ => rfl, fun _ _ => rfl, rfl, rfl, rfl, rfl, rfl⟩

theorem sameBut_trans {a : Nat} {h h1 h2 : Heap} (h01 : h.sameBut a h1) (h12 : h1.sameBut a h2) :
    h.sameBut a h2 := by
  obtain ⟨a1, a2, a3, a4, a5, a6, a7⟩ := h01
  obtain ⟨b1, b2, b3, b4, b5, b6, b7⟩ := h12
  exact ⟨fun b => (b1 b).trans (a1 b), fun b hb => (b2 b hb).trans (a2 b hb), b3.trans a3,
    b4.trans a4, b5.trans a5, b6.trans a6, b7.trans a7⟩

theorem assign_sameBut (s : Slice) (i : Nat) (v : Log) (h h1 : Heap)
    (ha : s.assign i v h = some h1) : h.sameBut s.arr h1 := by
  unfold Slice.assign at ha
  split at ha
  · cases ha
    exact ⟨fun b => getD_set_self_length _ _ _ (by simp) b,
      fun b hb => getD_set_ne _ _ _ _ hb, by simp, rfl, rfl, rfl, rfl⟩
  · cases ha

theorem assignAll_sameBut (s : Slice) (ws : List (Nat × Log)) (h h1 : Heap)
    (ha : s.assignAll ws h = some h1) : h.sameBut s.arr h1 := by
  induction ws generalizing h with
  | nil =>
    simp only [Slice.assignAll, Option.some.injEq] at ha
    subst ha
    exact sameBut_refl _ _
  | cons w ws ih =>
    obtain ⟨i, v⟩ := w
    simp only [Slice.assignAll] at ha
    cases hs : s.assign i v h with
    | none => rw [hs] at ha; cases ha
    | some h2 =>
      rw [hs] at ha
      exact sameBut_trans (assign_sameBut s i v h h2 hs) (ih h2 ha)

theorem sameBut_read {a : Nat} {h h1 : Heap} (hs : h.sameBut a h1) (s : Slice)
    (hv : s.valid h) (hd : s.len = 0 ∨ s.arr ≠ a) :
    s.valid h1 ∧ h1.readSlice s = h.readSlice s := by
  refine ⟨by unfold Slice.valid at *; rw [hs.1]; exact hv, ?_⟩
  rcases hd with hd | hd
  · rw [readSlice_len_zero _ _ hd, readSlice_len_zero _ _ hd]
  · unfold Heap.readSlice; rw [hs.2.1 _ hd]

theorem alloc_read (h : Heap) (x : List Log) (s : Slice) (hv : s.valid h) :
    s.valid { h with logArrays := h.logArrays ++ [x] } ∧
    ({ h with logArrays := h.logArrays ++ [x] } : Heap).readSlice s = h.readSlice s := by
  by_cases hl : s.len = 0
  · refine ⟨?_, by rw [readSlice_len_zero _ _ hl, readSlice_len_zero _ _ hl]⟩
    simp only [Slice.valid, List.getD_eq_getElem?_getD] at hv ⊢
    by_cases ha : s.arr < h.logArrays.length
    · simpa [List.getElem?_append_left ha] using hv
    · have hn : h.logArrays[s.arr]? = none := List.getElem?_eq_none (by omega)
      simp [hn] at hv
      omega
  · have ha := valid_arr_lt h s hv (by omega)
    simp only [Slice.valid, Heap.readSlice, List.getD_eq_getElem?_getD] at hv ⊢
    simp [List.getElem?_append_left ha]
    simpa using hv

theorem ListLogs_read {σ : Type} (bm : BattleManager σ) (h : Heap) (hv : bm.logs.valid h) :
    (bm.ListLogs h).2.readSlice (bm.ListLogs h).1 = h.readSlice bm.logs := by
  rw [ListLogs_eq bm h hv]
  have hlen := readSlice_length h bm.logs hv
  show List.take bm.logs.len (List.drop 0
    ((h.logArrays ++ [h.readSlice bm.logs]).getD h.logArrays.length [])) = h.readSlice bm.logs
  rw [List.getD_eq_getElem?_getD, List.getElem?_append_right (le_refl _)]
  simp [List.take_of_length_le (le_of_eq hlen)]

/-- C2. On a manager whose history slice is valid, `ListLogs` returns a slice
holding the full history (same logs, same order, same length); the call
leaves the history as it was; and after any run of assignments `out[i] = v` to
the returned slice the history is still what it was, the map objects are
untouched, and a second `ListLogs` returns the same sequence as the first. -/
theorem ListLogs_defensive_copy {σ : Type} (bm : BattleManager σ) (h : Heap)
    (ws : List (Nat × Log)) (h1 : Heap)
    (hv : bm.logs.valid h)
    (hw : (bm.ListLogs h).1.assignAll ws (bm.ListLogs h).2 = some h1) :
    (bm.ListLogs h).2.readSlice (bm.ListLogs h).1 = h.readSlice bm.logs ∧
    (bm.ListLogs h).1.len = bm.logs.len ∧
    (bm.ListLogs h).2.readSlice bm.logs = h.readSlice bm.logs ∧
    h1.readSlice bm.logs = h.readSlice bm.logs ∧
    h1.maps = h.maps ∧
    (bm.ListLogs h1).2.readSlice (bm.ListLogs h1).1
      = (bm.ListLogs h).2.readSlice (bm.ListLogs h).1 := by
  have hfirst := ListLogs_read bm h hv
  have hsb := assignAll_sameBut _ ws _ h1 hw
  rw [ListLogs_eq bm h hv] at hsb ⊢
  obtain ⟨hv2, hr2⟩ := alloc_read h (h.readSlice bm.logs) bm.logs hv
  have hd : bm.logs.len = 0 ∨ bm.logs.arr ≠ h.logArrays.length := by
    by_cases hl : bm.logs.len = 0
    · exact Or.inl hl
    · exact Or.inr (Nat.ne_of_lt (valid_arr_lt h bm.logs hv (by omega)))
  obtain ⟨hv3, hr3⟩ := sameBut_read hsb bm.logs hv2 hd
  rw [ListLogs_eq bm h hv] at hfirst
  refine ⟨hfirst, rfl, hr2, hr3.trans hr2, hsb.2.2.2.2.1, ?_⟩
  rw [ListLogs_read bm h1 hv3, hfirst, hr3, hr2]

/-! ## Operations and the history -/

theorem Pause_logArrays {σ : Type} (bm : BattleManager σ) (h : Heap) :
    (bm.Pause h).2.2.logArrays = h.logArrays ∧ (bm.Pause h).2.1.logs = bm.logs ∧
      (bm.Pause h).2.1.paused = true ∧ (bm.Pause h).1 = none := by
  unfold BattleManager.Pause
  cases bm.turnTicker <;> cases bm.cancel <;> simp [stopTicker, cancelCtx]

theorem Op_run_paused {σ : Type} (op : Op σ) (bm : BattleManager σ) (w : World σ)
    (hp : bm.paused = true) : (op.run (bm, w)).2.1.paused = true := by
  cases op with
  | ListLogs => exact hp
  | Pause => exact (Pause_logArrays bm w.heap).2.2.1
  | processTicker => exact hp
  | emitNewLogs ctx logs => exact hp
  | AddLogsReceiver r => exact hp

theorem runOps_paused {σ : Type} (ops : List (Op σ)) (bm : BattleManager σ) (w : World σ)
    (hp : bm.paused = true) : (runOps ops (bm, w)).1.paused = true := by
  induction ops generalizing bm w with
  | nil => exact hp
  | cons op ops ih => exact ih _ _ (Op_run_paused op bm w hp)

/-- C10. `NewBattleManager` returns a nil error and a manager with
`paused = false`, an empty history and no receivers; `Pause` returns nil and
leaves `paused = true`; and a manager with `paused = true` still has
`paused = true` after any run of `Pause`, `processTicker`, `emitNewLogs`,
`AddLogsReceiver` and `ListLogs`. -/
theorem lifecycle_pause_terminal {σ : Type} (ctx : Context) (combatants : List CombatantPtr)
    (h : Heap) (bm : BattleManager σ) (w : World σ) (ops : List (Op σ)) :
    ((@NewBattleManager σ ctx combatants h).1.2 = none ∧
      (@NewBattleManager σ ctx combatants h).1.1.paused = false ∧
      (@NewBattleManager σ ctx combatants h).1.1.history (@NewBattleManager σ ctx combatants h).2
        = [] ∧
      (@NewBattleManager σ ctx combatants h).1.1.logsReceivers = []) ∧
    ((bm.Pause w.heap).1 = none ∧ (bm.Pause w.heap).2.1.paused = true) ∧
    (bm.paused = true → (runOps ops (bm, w)).1.paused = true) ∧
    (runOps ops ((Op.run .Pause (bm, w)).2)).1.paused = true := by
  refine ⟨⟨rfl, rfl, ?_, rfl⟩, ⟨(Pause_logArrays bm w.heap).2.2.2,
    (Pause_logArrays bm w.heap).2.2.1⟩, runOps_paused ops bm w, ?_⟩
  · simp [BattleManager.history, NewBattleManager, makeLogs, withCancel, Heap.readSlice]
  · exact runOps_paused ops _ _ (Pause_logArrays bm w.heap).2.2.1

/-! ## Action resolution and state application -/

/-- C5. Two calls of `ProcessActions` on the same combatants and the same
batch, the second made on the heap the first one left, return the same slice
and error, holding the same log sequence; the first call leaves the heap as it
was. -/
theorem ProcessActions_deterministic (cl : CombatLogic) (actions : List Action) (h : Heap) :
    (cl.ProcessActions actions (cl.ProcessActions actions h).2).1
        = (cl.ProcessActions actions h).1 ∧
    (cl.ProcessActions actions (cl.ProcessActions actions h).2).2.readSlice
        (cl.ProcessActions actions (cl.ProcessActions actions h).2).1.1
      = (cl.ProcessActions actions h).2.readSlice (cl.ProcessActions actions h).1.1 ∧
    (cl.ProcessActions actions h).2 = h :=
  ⟨rfl, rfl, rfl⟩

/-- C6. Every log in the slice `ProcessActions` returns references an action of
the input batch that is valid on the registry (source present and Alive,
target present); and an action whose source is unknown or Incapacitated is
referenced by no returned log. -/
theorem ProcessActions_logs_reference_valid (cl : CombatLogic) (actions : List Action)
    (h : Heap) :
    List.Forall
      (fun l : Log => l.Action ∈ actions ∧
        validAction (cl.ProcessActions actions h).2 cl.combatants l.Action = true)
      ((cl.ProcessActions actions h).2.readSlice (cl.ProcessActions actions h).1.1) ∧
    ∀ a : Action, sourceOk h cl.combatants a = false →
      a ∉ ((cl.ProcessActions actions h).2.readSlice (cl.ProcessActions actions h).1.1).map
        Log.Action := by
  simp [CombatLogic.ProcessActions, Heap.readSlice, Slice.nil]

theorem applyAll_heap (steps : List Apply) (h : Heap) : applyAll steps h = h := by
  induction steps generalizing h with
  | nil => rfl
  | cons a as ih =>
    cases a <;> exact ih h

/-- C7. A combatant whose State is Incapacitated is still Incapacitated after
any sequence of log batches applied through `BattleField.ReceiveLogs`,
`BattleField.updateCombatants` or `CombatantLogic.ProcessCombatants`, and each
of these calls returns nil. -/
theorem incapacitated_stays (steps : List Apply) (h : Heap) (p : CombatantPtr) (c : Combatant)
    (hc : h.deref p = some c) (hs : c.State = StateIncapacitated) :
    (∃ c1, (applyAll steps h).deref p = some c1 ∧ c1.State = StateIncapacitated) ∧
    ∀ a ∈ steps, ∀ h1 : Heap, (a.run h1).1 = none := by
  refine ⟨⟨c, by rw [applyAll_heap]; exact hc, hs⟩, ?_⟩
  intro a _ h1
  cases a <;> rfl

/-- C9, observed on the code: on the manager cancelled by `Pause`,
`processTicker` reports no error and returns the manager and the world as they
were; the call is ignored without a sign. -/
theorem processTicker_cancelled_silent :
    cancelledManager.paused = true ∧
    (Op.run .processTicker (cancelledManager, cancelledWorld)).1 = none ∧
    cancelledManager.processTicker cancelledWorld = (cancelledManager, cancelledWorld) :=
  ⟨rfl, rfl, rfl⟩

/-- C4, observed on the code: for the registry of A and B and the batch of one
action with an unknown target and one valid action, `ProcessActions` returns a
nil error (no validation failure) and no logs. -/
theorem ProcessActions_isolation_observed :
    validAction duelHeap duelCombatants attackUnknown = false ∧
    validAction duelHeap duelCombatants attackAB = true ∧
    (CombatLogic.ProcessActions { combatants := duelCombatants } [attackUnknown, attackAB]
      duelHeap).1.2 = none ∧
    (CombatLogic.ProcessActions { combatants := duelCombatants } [attackUnknown, attackAB]
      duelHeap).2.readSlice
      (CombatLogic.ProcessActions { combatants := duelCombatants } [attackUnknown, attackAB]
        duelHeap).1.1 = [] := by
  refine ⟨by decide, by decide, rfl, rfl⟩

/-- C8, observed on the code: in the duel of A and B (both Alive, health 10),
resolving the attack A->B with "damage 12" returns no log, applying the result
leaves B Alive, and after `processTicker` the slice `ListLogs` returns is
empty. -/
theorem duel_attack_observed :
    ((duelManager.combatLogic.ProcessActions [attackAB] duelWorld.heap).2.readSlice
      (duelManager.combatLogic.ProcessActions [attackAB] duelWorld.heap).1.1).length = 0 ∧
    (duelManager.combatantLogic.ProcessCombatants
        (duelManager.combatLogic.ProcessActions [attackAB] duelWorld.heap).1.1
        (duelManager.combatLogic.ProcessActions [attackAB] duelWorld.heap).2).2.deref (some 1)
      = some { ID := 2, State := StateAlive, Stats := some 1 } ∧
    (BattleField.ReceiveLogs { combatants := duelCombatants } duelManager.ctx
        (duelManager.combatLogic.ProcessActions [attackAB] duelWorld.heap).1.1
        (duelManager.combatLogic.ProcessActions [attackAB] duelWorld.heap).2).2.deref (some 1)
      = some { ID := 2, State := StateAlive, Stats := some 1 } ∧
    (((duelManager.processTicker duelWorld).1.ListLogs
        (duelManager.processTicker duelWorld).2.heap).2.readSlice
      ((duelManager.processTicker duelWorld).1.ListLogs
        (duelManager.processTicker duelWorld).2.heap).1).length = 0 := by
  refine ⟨rfl, rfl, rfl, rfl⟩

/-! ## Instances at concrete values -/

/-- Instance of C1: five receivers registered on the duel manager, the third
overwriting the batch, the fourth failing. -/
theorem emitNewLogs_registration_order_witness :
    notingManager.logsReceivers = [] ∧ duelManager.logsReceivers = [] ∧
    (sampleReceivers.foldl BattleManager.AddLogsReceiver duelManager).logsReceivers
      = sampleReceivers ∧
    ((sampleReceivers.foldl BattleManager.AddLogsReceiver duelManager).emitNewLogs 0 freshBatch
      batchWorld).1 = some "receiver down" ∧
    (((notingFrom 0 sampleReceivers).foldl BattleManager.AddLogsReceiver
        notingManager).emitNewLogs 0 freshBatch
      { heap := batchWorld.heap, ext := (batchWorld.ext, []) }).2.ext.2
      = [{ index := 0, ctx := 0, batch := freshBatch, seen := [logA], result := none },
         { index := 1, ctx := 0, batch := freshBatch, seen := [logA], result := none },
         { index := 2, ctx := 0, batch := freshBatch, seen := [logA], result := none },
         { index := 3, ctx := 0, batch := freshBatch, seen := [logC],
           result := some "receiver down" }] :=
  ⟨rfl, rfl,
    (emitNewLogs_registration_order notingManager duelManager sampleReceivers 0 freshBatch
      batchWorld rfl rfl).1,
    rfl, by decide⟩

/-- Instance of C2: both elements of the returned copy of a two-log history are overwritten. -/
theorem ListLogs_defensive_copy_witness :
    historyManager.logs.valid historyHeap ∧
    (historyManager.ListLogs historyHeap).1.assignAll [(0, logC), (1, logC)]
        (historyManager.ListLogs historyHeap).2
      = some { historyHeap with logArrays := [[logA, logB], [logC, logC]] } ∧
    (historyManager.ListLogs
        { historyHeap with logArrays := [[logA, logB], [logC, logC]] }).2.readSlice
      (historyManager.ListLogs
        { historyHeap with logArrays := [[logA, logB], [logC, logC]] }).1
      = (historyManager.ListLogs historyHeap).2.readSlice (historyManager.ListLogs historyHeap).1 :=
  ⟨by decide, by decide,
    (ListLogs_defensive_copy historyManager historyHeap [(0, logC), (1, logC)]
      { historyHeap with logArrays := [[logA, logB], [logC, logC]] }
      (by decide) (by decide)).2.2.2.2.2⟩

/-- Instance of C6: an action whose source is Incapacitated. -/
theorem ProcessActions_logs_reference_valid_witness :
    sourceOk historyHeap [some 0, some 1] attackFromFallen = false ∧
    attackFromFallen ∉
      ((CombatLogic.ProcessActions { combatants := [some 0, some 1] } [attackFromFallen]
          historyHeap).2.readSlice
        (CombatLogic.ProcessActions { combatants := [some 0, some 1] } [attackFromFallen]
          historyHeap).1.1).map Log.Action :=
  ⟨by decide,
    (ProcessActions_logs_reference_valid { combatants := [some 0, some 1] } [attackFromFallen]
      historyHeap).2 attackFromFallen (by decide)⟩

/-- Instance of C7: the Incapacitated combatant B across two applied batches. -/
theorem incapacitated_stays_witness :
    historyHeap.deref (some 1) = some { ID := 2, State := StateIncapacitated, Stats := none } ∧
    ∃ c1, (applyAll
        [.receiveLogs { combatants := [some 0, some 1] } 0 { arr := 0, off := 0, len := 2 },
         .processCombatants { combatants := [some 0, some 1] } { arr := 0, off := 0, len := 2 }]
        historyHeap).deref (some 1) = some c1 ∧ c1.State = StateIncapacitated :=
  ⟨rfl,
    (incapacitated_stays
      [.receiveLogs { combatants := [some 0, some 1] } 0 { arr := 0, off := 0, len := 2 },
       .processCombatants { combatants := [some 0, some 1] } { arr := 0, off := 0, len := 2 }]
      historyHeap (some 1) { ID := 2, State := StateIncapacitated, Stats := none } rfl rfl).1⟩

/-- Instance of C10: a run of five operations on the cancelled manager. -/
theorem lifecycle_pause_terminal_witness :
    cancelledManager.paused = true ∧
    (runOps [.processTicker, .AddLogsReceiver countingReceiver, .emitNewLogs 0 Slice.nil,
        .ListLogs, .Pause] (cancelledManager, cancelledWorld)).1.paused = true :=
  ⟨rfl,
    (lifecycle_pause_terminal 0 duelCombatants duelHeap cancelledManager cancelledWorld
      [.processTicker, .AddLogsReceiver countingReceiver, .emitNewLogs 0 Slice.nil,
        .ListLogs, .Pause]).2.2.1 rfl⟩

end Battle
